import Mathlib

/-!
Shallow embedding of shurl (src/main.rs): a short-URL manager that writes a
redirect HTML artifact into a git repository, appends an entry to an
`index.html` ledger, commits the working tree, and pushes to `origin master`.

The repository directory is modelled as an association list from file names
to contents; the git repository as a list of commits plus an optional head
commit id and the name of the checked-out branch.  The random generator is
modelled as a stream `Nat → Nat` of raw draws; `gen_range(b'a'..b'z')`
maps a raw draw `r` into the half-open byte range `[97, 122)` as
`97 + r % 25`.  External collaborators (URL parsing by the `url` crate,
repository opening, the push subprocess) enter as parameters of `run`.
-/

namespace Shurl

/-- The repository working directory: file name ↦ file content. -/
abbrev FileSys := List (String × String)

/-- Look a file up by name. -/
def lookupFile : FileSys → String → Option String
  | [], _ => none
  | (k, v) :: rest, name => if k = name then some v else lookupFile rest name

/-- Create or truncate-and-overwrite a file (the semantics of `fs::write`). -/
def writeFile : FileSys → String → String → FileSys
  | [], name, content => [(name, content)]
  | (k, v) :: rest, name, content =>
    if k = name then (k, content) :: rest else (k, v) :: writeFile rest name content

/-- Open with `create(true).append(true)` and write: create the file if
absent, otherwise keep its contents and add `extra` at the end. -/
def appendFile (fs : FileSys) (name extra : String) : FileSys :=
  writeFile fs name (((lookupFile fs name).getD "") ++ extra)

/-- Does `pat` occur at the head of `l`? -/
def strLead : List Char → List Char → Bool
  | [], _ => true
  | _ :: _, [] => false
  | p :: ps, c :: cs => p = c && strLead ps cs

/-- Does `pat` occur as a contiguous run anywhere in `l`? -/
def occursIn (pat : List Char) : List Char → Bool
  | [] => pat.isEmpty
  | c :: cs => strLead pat (c :: cs) || occursIn pat cs

/-- Substring occurrence on strings. -/
def strOccurs (pat s : String) : Bool := occursIn pat.data s.data

/-- One draw of `rng.gen_range(b'a'..b'z')` cast to `char`: the raw draw is
reduced into the half-open byte range `[97, 122)`, i.e. `'a'..='y'`. -/
def genRange (r : Nat) : Char := Char.ofNat (97 + r % 25)

/-- `create_name` (src/main.rs:54): push five drawn characters onto an empty
string; `i` is the position of the stream's next unconsumed draw. -/
def create_name (rng : Nat → Nat) (i : Nat) : String :=
  String.mk ((List.range 5).map fun j => genRange (rng (i + j)))

/-- The name-allocation loop of `main` (src/main.rs:157-164): generate a
name, and while `<name>.html` exists in the repository directory regenerate.
The source loop is unbounded; `fuel` bounds the recursion depth of this
embedding, `none` meaning the loop did not terminate within `fuel` attempts. -/
def allocName (fs : FileSys) (rng : Nat → Nat) : Nat → Nat → Option String
  | 0, _ => none
  | fuel + 1, i =>
    let name := create_name rng i
    if (lookupFile fs (name ++ ".html")).isSome then
      allocName fs rng fuel (i + 5)
    else
      some name

/-- Opening fragment of the artifact template, up to the refresh meta tag. -/
def hdr : String := "<html>\n    <head>\n        "

/-- The refresh meta tag up to the interpolated URL. -/
def metaOpen : String := "<meta http-equiv=\"refresh\" content=\"0; URL="

/-- Close of the refresh meta tag. -/
def metaClose : String := "\" />"

/-- Template text between the refresh tag and the fallback anchor. -/
def midPart : String :=
  "\n    </head>\n    <body>\n        <p>Redirecting...</p>\n        <p>If you are not redirected automatically, follow the "

/-- Open of the fallback anchor, up to the interpolated URL. -/
def aOpen : String := "<a href=\""

/-- Close of the fallback anchor: its label is the fixed text `link`. -/
def aClose : String := "\">link</a>"

/-- Closing fragment of the artifact template. -/
def tailPart : String := "</p>\n    </body>\n</html>"

/-- `file_content` (src/main.rs:144-154): the redirect artifact document,
with the serialized URL interpolated twice. -/
def file_content (url : String) : String :=
  hdr ++ metaOpen ++ url ++ metaClose ++ midPart ++ aOpen ++ url ++ aClose ++ tailPart

/-- The ledger line appended to `index.html` (src/main.rs:190):
newline, URL, `: `, then an anchor whose href and label are both
`./<fileName>`. -/
def indexEntry (url fileName : String) : String :=
  "\n" ++ url ++ ": <a href=\"./" ++ fileName ++ "\">./" ++ fileName ++ "</a><br/>"

/-- A git commit: identifier, parent identifiers, message, author and
committer identity (the same configured identity is used for both), and the
snapshotted tree. -/
structure GitCommit where
  id : Nat
  parents : List Nat
  message : String
  author : String
  email : String
  tree : FileSys
deriving DecidableEq, Repr

/-- The git repository: working directory files, commit list in creation
order, the head commit (none for an empty repository), and the name of the
checked-out branch. -/
structure RepoState where
  files : FileSys
  commits : List GitCommit
  head : Option Nat
  branch : String
deriving DecidableEq, Repr

/-- Parent determination (src/main.rs:208-214): one parent — the commit the
head points to — when the head resolves, zero parents otherwise. -/
def newParents : Option Nat → List Nat
  | some h => [h]
  | none => []

/-- Outcome of one invocation. `urlError`, `repoError` and `diverged` are
the early exits (bad URL, unopenable repository, and the name loop not
terminating within fuel); `ok` carries the commit id, the chosen short name,
the serialized URL, the push request `(remote, branch)`, and whether the
push succeeded. -/
inductive RunResult where
  | urlError : RunResult
  | repoError : RunResult
  | diverged : RunResult
  | ok : Nat → String → String → String × String → Bool → RunResult
deriving DecidableEq, Repr

/-- Result paired with the repository state after the run. -/
structure RunOut where
  result : RunResult
  state : RepoState
deriving DecidableEq, Repr

/-- The success path of `main` after the short name is fixed
(src/main.rs:167-227): write the artifact, append the ledger entry, stage
everything, commit with parentage from the current head advancing the head,
then push to `origin master`. -/
def runCore (cfgName cfgEmail url name : String) (pushOk : Bool)
    (st : RepoState) : RunOut :=
  let fname := name ++ ".html"
  let fs1 := writeFile st.files fname (file_content url)
  let fs2 := appendFile fs1 "index.html" (indexEntry url fname)
  let cid := st.commits.length
  let commit : GitCommit :=
    ⟨cid, newParents st.head, "Add redirect to " ++ url, cfgName, cfgEmail, fs2⟩
  let st2 : RepoState :=
    { files := fs2, commits := st.commits ++ [commit], head := some cid,
      branch := st.branch }
  ⟨.ok cid name url ("origin", "master") pushOk, st2⟩

/-- Short-name resolution (src/main.rs:155-165): a user-supplied name is
used verbatim with no existence check; otherwise the allocation loop runs. -/
def resolveName (shortName : Option String) (fs : FileSys) (rng : Nat → Nat)
    (fuel : Nat) : Option String :=
  match shortName with
  | some n => some n
  | none => allocName fs rng fuel 0

/-- `main` from the URL parse onward (src/main.rs:116-227).  `parse` models
`Url::parse` composed with serialization (`none` = parse error);
`repoOpenOk` models whether `git2::Repository::open` succeeds; `pushOk`
models the outcome of the `git push` subprocess; `shortName` is the optional
second CLI argument; `rng`/`fuel` drive the name-allocation loop. -/
def run (parse : String → Option String) (repoOpenOk : Bool) (pushOk : Bool)
    (cfgName cfgEmail rawUrl : String) (shortName : Option String)
    (rng : Nat → Nat) (fuel : Nat) (st : RepoState) : RunOut :=
  match parse rawUrl with
  | none => ⟨.urlError, st⟩
  | some url =>
    if repoOpenOk then
      match resolveName shortName st.files rng fuel with
      | none => ⟨.diverged, st⟩
      | some name => runCore cfgName cfgEmail url name pushOk st
    else
      ⟨.repoError, st⟩

/-- Parameters of one invocation, for sequencing several runs. -/
structure RunParams where
  parse : String → Option String
  repoOpenOk : Bool
  pushOk : Bool
  cfgName : String
  cfgEmail : String
  rawUrl : String
  shortName : Option String
  rng : Nat → Nat
  fuel : Nat

/-- Run a sequence of invocations, threading the repository state and
collecting the results in run order. -/
def runSeq : List RunParams → RepoState → RepoState × List RunResult
  | [], st => (st, [])
  | p :: ps, st =>
    let out := run p.parse p.repoOpenOk p.pushOk p.cfgName p.cfgEmail p.rawUrl
      p.shortName p.rng p.fuel st
    let rest := runSeq ps out.state
    (rest.1, out.result :: rest.2)

/-- Is a result the success constructor? -/
def isOkRes : RunResult → Bool
  | .ok _ _ _ _ _ => true
  | _ => false

/-- The short name carried by a success result. -/
def nameOf : RunResult → String
  | .ok _ n _ _ _ => n
  | _ => ""

/-- The serialized URL carried by a success result. -/
def urlOf : RunResult → String
  | .ok _ _ u _ _ => u
  | _ => ""

/-- The push request `(remote, branch)` issued by a successful run. -/
def pushReqOf : RunResult → Option (String × String)
  | .ok _ _ _ pr _ => some pr
  | _ => none

/-- The ledger entry a successful run appends (empty for failed runs). -/
def entryOf : RunResult → String
  | .ok _ n u _ _ => indexEntry u (n ++ ".html")
  | _ => ""

/-- Concatenation, in run order, of the ledger entries of a result list. -/
def joinEntries : List RunResult → String
  | [] => ""
  | r :: rs => entryOf r ++ joinEntries rs

/-- An initially empty repository: no files, no commits, no head. -/
def emptyRepo : RepoState := ⟨[], [], none, "master"⟩

/-- A repository whose ledger already holds some content. -/
def oldLedgerRepo : RepoState := ⟨[("index.html", "OLD")], [], none, "master"⟩

/-- An empty repository whose checked-out branch is named `dev`. -/
def devRepo : RepoState := ⟨[], [], none, "dev"⟩

/-- A repository that already holds an artifact named `aaaaa.html`. -/
def preRepo : RepoState := ⟨[("aaaaa.html", "PREV")], [], none, "master"⟩

/-- A URL parser that accepts every input unchanged. -/
def someParse : String → Option String := fun s => some s

/-- A random stream that always draws 0, so every generated name is `aaaaa`. -/
def rng0 : Nat → Nat := fun _ => 0

/-- One possible behavior of the external URL parser, modelled from the
spec: parsing normalizes the text (here: a trailing slash is added to
`https://example.com`), so the serialization may differ from the raw
command-line argument. -/
def exampleParse : String → Option String :=
  fun s => if s = "https://example.com" then some "https://example.com/" else some s

/-- Parameters of a run that supplies the short name `aaaaa`. -/
def pa : RunParams := ⟨someParse, true, true, "N", "E", "http://a/", some "aaaaa", rng0, 1⟩

/-- Parameters of a run that supplies the short name `bbbbb`. -/
def pb : RunParams := ⟨someParse, true, true, "N", "E", "http://b/", some "bbbbb", rng0, 1⟩

/-- Parameters of a run that supplies the short name `index`. -/
def pIndex : RunParams := ⟨someParse, true, true, "N", "E", "http://v/", some "index", rng0, 1⟩

/-- The repository-directory contents after the success path: the artifact
written at `<name>.html`, then the ledger entry appended to `index.html`. -/
def postFiles (u n : String) (st : RepoState) : FileSys :=
  appendFile (writeFile st.files (n ++ ".html") (file_content u)) "index.html"
    (indexEntry u (n ++ ".html"))

/-- The commit created by the success path. -/
def postCommit (cn ce u n : String) (st : RepoState) : GitCommit :=
  ⟨st.commits.length, newParents st.head, "Add redirect to " ++ u, cn, ce,
   postFiles u n st⟩

/-- The repository state after the success path. -/
def postState (cn ce u n : String) (st : RepoState) : RepoState :=
  ⟨postFiles u n st, st.commits ++ [postCommit cn ce u n st],
   some st.commits.length, st.branch⟩

theorem runCore_eq (cn ce u n : String) (pk : Bool) (st : RepoState) :
    runCore cn ce u n pk st =
      ⟨.ok st.commits.length n u ("origin", "master") pk, postState cn ce u n st⟩ :=
  rfl

theorem lookupFile_writeFile_self (fs : FileSys) (k v : String) :
    lookupFile (writeFile fs k v) k = some v := by
  induction fs with
  | nil => simp [writeFile, lookupFile]
  | cons p rest ih =>
    obtain ⟨a, b⟩ := p
    by_cases h : a = k <;> simp [writeFile, lookupFile, h, ih]

theorem lookupFile_writeFile_ne (fs : FileSys) (k v k2 : String) (h : k2 ≠ k) :
    lookupFile (writeFile fs k v) k2 = lookupFile fs k2 := by
  induction fs with
  | nil => simp [writeFile, lookupFile, Ne.symm h]
  | cons p rest ih =>
    obtain ⟨a, b⟩ := p
    by_cases ha : a = k
    · subst ha
      simp [writeFile, lookupFile, Ne.symm h]
    · simp [writeFile, lookupFile, ha, ih]

theorem lookupFile_appendFile_self (fs : FileSys) (k extra : String) :
    lookupFile (appendFile fs k extra) k =
      some (((lookupFile fs k).getD "") ++ extra) := by
  simp [appendFile, lookupFile_writeFile_self]

theorem lookupFile_appendFile_ne (fs : FileSys) (k extra k2 : String) (h : k2 ≠ k) :
    lookupFile (appendFile fs k extra) k2 = lookupFile fs k2 := by
  simp [appendFile, lookupFile_writeFile_ne _ _ _ _ h]

theorem genRange_bounds (r : Nat) : 'a' ≤ genRange r ∧ genRange r ≤ 'y' := by
  have h : ∀ k : Fin 25, 'a' ≤ Char.ofNat (97 + k.val) ∧
      Char.ofNat (97 + k.val) ≤ 'y' := by decide
  simpa [genRange] using h ⟨r % 25, Nat.mod_lt r (by omega)⟩

theorem create_name_length (rng : Nat → Nat) (i : Nat) :
    (create_name rng i).length = 5 := by
  simp [create_name, String.length]

theorem create_name_chars (rng : Nat → Nat) (i : Nat) :
    ∀ c ∈ (create_name rng i).data, 'a' ≤ c ∧ c ≤ 'y' := by
  intro c hc
  simp only [create_name, String.data] at hc
  obtain ⟨j, _, rfl⟩ := List.mem_map.mp hc
  exact genRange_bounds _

theorem allocName_some (fs : FileSys) (rng : Nat → Nat) :
    ∀ fuel i n, allocName fs rng fuel i = some n →
      (∃ j, n = create_name rng j) ∧ lookupFile fs (n ++ ".html") = none := by
  intro fuel
  induction fuel with
  | zero => intro i n h; simp [allocName] at h
  | succ k ih =>
    intro i n h
    by_cases hc : (lookupFile fs (create_name rng i ++ ".html")).isSome
    · rw [allocName, if_pos hc] at h
      exact ih _ _ h
    · rw [allocName, if_neg hc] at h
      cases h
      exact ⟨⟨i, rfl⟩, Option.not_isSome_iff_eq_none.mp hc⟩

theorem resolveName_some (sn : Option String) (fs : FileSys) (rng : Nat → Nat)
    (fuel : Nat) (n : String) (h : resolveName sn fs rng fuel = some n) :
    sn = some n ∨ (sn = none ∧ allocName fs rng fuel 0 = some n) := by
  cases sn with
  | some n0 =>
    simp only [resolveName, Option.some.injEq] at h
    exact Or.inl (by rw [h])
  | none => exact Or.inr ⟨rfl, h⟩

theorem run_ok (parse : String → Option String) (ro po : Bool)
    (cn ce raw : String) (sn : Option String) (rng : Nat → Nat) (fuel : Nat)
    (st st2 : RepoState) (cid : Nat) (n u : String) (pr : String × String)
    (pk : Bool)
    (h : run parse ro po cn ce raw sn rng fuel st = ⟨.ok cid n u pr pk, st2⟩) :
    parse raw = some u ∧ ro = true ∧ pk = po ∧ pr = ("origin", "master") ∧
      cid = st.commits.length ∧
      (sn = some n ∨ (sn = none ∧ allocName st.files rng fuel 0 = some n)) ∧
      st2 = postState cn ce u n st := by
  unfold run at h
  cases hp : parse raw with
  | none => rw [hp] at h; simp at h
  | some url =>
    rw [hp] at h
    cases ro with
    | false => simp at h
    | true =>
      simp only [if_true] at h
      cases hr : resolveName sn st.files rng fuel with
      | none => rw [hr] at h; simp at h
      | some n0 =>
        rw [hr] at h
        obtain ⟨h1, h2⟩ : (RunResult.ok st.commits.length n0 url
            ("origin", "master") po = .ok cid n u pr pk) ∧
            postState cn ce url n0 st = st2 :=
          ⟨congrArg RunOut.result h, congrArg RunOut.state h⟩
        simp only [RunResult.ok.injEq] at h1
        obtain ⟨e1, e2, e3, e4, e5⟩ := h1
        subst e2 e3
        exact ⟨rfl, rfl, e5.symm, e4.symm, e1.symm, resolveName_some _ _ _ _ _ hr,
          h2.symm⟩

theorem strLead_self_append (p b : List Char) : strLead p (p ++ b) = true := by
  induction p with
  | nil => simp [strLead]
  | cons c cs ih => simp [strLead, ih]

theorem occursIn_self_append (p b : List Char) : occursIn p (p ++ b) = true := by
  cases p with
  | nil => cases b <;> simp [occursIn, strLead]
  | cons c cs =>
    simp only [List.cons_append, occursIn, Bool.or_eq_true]
    exact Or.inl (strLead_self_append _ _)

theorem occursIn_append_mid (a p b : List Char) :
    occursIn p (a ++ (p ++ b)) = true := by
  induction a with
  | nil => simpa using occursIn_self_append p b
  | cons c cs ih => simp [occursIn, ih]

theorem strOccurs_append_mid (a p b : String) :
    strOccurs p (a ++ p ++ b) = true := by
  unfold strOccurs
  rw [String.data_append, String.data_append, List.append_assoc]
  exact occursIn_append_mid _ _ _

theorem strOccurs_append_right (a p : String) : strOccurs p (a ++ p) = true := by
  unfold strOccurs
  rw [String.data_append]
  have h := occursIn_append_mid a.data p.data []
  rwa [List.append_nil] at h

theorem allocName_collide :
    ∀ k i, allocName [("aaaaa.html", "x")] (fun _ => 0) k i = none := by
  intro k
  induction k with
  | zero => intro i; rfl
  | succ k ih =>
    intro i
    have h : allocName [("aaaaa.html", "x")] (fun _ => 0) (k + 1) i
        = allocName [("aaaaa.html", "x")] (fun _ => 0) k (i + 5) := rfl
    rw [h]
    exact ih (i + 5)

theorem run_state_pushIndep (parse : String → Option String) (ro : Bool)
    (p1 p2 : Bool) (cn ce raw : String) (sn : Option String) (rng : Nat → Nat)
    (fuel : Nat) (st : RepoState) :
    (run parse ro p1 cn ce raw sn rng fuel st).state =
      (run parse ro p2 cn ce raw sn rng fuel st).state := by
  unfold run
  cases hp : parse raw with
  | none => rfl
  | some u =>
    cases ro with
    | false => rfl
    | true =>
      cases hr : resolveName sn st.files rng fuel with
      | none => rfl
      | some n => rfl

theorem postFiles_index (u n : String) (st : RepoState)
    (h : n ++ ".html" ≠ "index.html") :
    lookupFile (postFiles u n st) "index.html" =
      some (((lookupFile st.files "index.html").getD "") ++
        indexEntry u (n ++ ".html")) := by
  unfold postFiles
  rw [lookupFile_appendFile_self, lookupFile_writeFile_ne _ _ _ _ (Ne.symm h)]

theorem postFiles_artifact (u n : String) (st : RepoState)
    (h : n ++ ".html" ≠ "index.html") :
    lookupFile (postFiles u n st) (n ++ ".html") = some (file_content u) := by
  unfold postFiles
  rw [lookupFile_appendFile_ne _ _ _ _ h, lookupFile_writeFile_self]

/-- Claim C5 (amended): provided no run uses the short name `index` (whose
artifact file would be the ledger file itself), after `N` successful runs
the ledger holds exactly the `N` entries of those runs, concatenated in run
order after the initial content, each entry referencing its run's artifact;
no existing content is modified, removed or reordered. -/
theorem C5_ledger_after_runs (ps : List RunParams) :
    ∀ st : RepoState,
      (∀ r ∈ (runSeq ps st).2, isOkRes r = true ∧
        nameOf r ++ ".html" ≠ "index.html") →
      (runSeq ps st).2.length = ps.length ∧
      ((lookupFile (runSeq ps st).1.files "index.html").getD "") =
        ((lookupFile st.files "index.html").getD "") ++
          joinEntries (runSeq ps st).2 ∧
      (ps ≠ [] → lookupFile (runSeq ps st).1.files "index.html" =
        some (((lookupFile st.files "index.html").getD "") ++
          joinEntries (runSeq ps st).2)) := by
  induction ps with
  | nil =>
    intro st _
    refine ⟨rfl, ?_, fun h => absurd rfl h⟩
    simp [runSeq, joinEntries, String.append_empty]
  | cons p ps ih =>
    intro st hall
    rcases hO : run p.parse p.repoOpenOk p.pushOk p.cfgName p.cfgEmail p.rawUrl
        p.shortName p.rng p.fuel st with ⟨res, st1⟩
    have hseq : runSeq (p :: ps) st = ((runSeq ps st1).1, res :: (runSeq ps st1).2) := by
      simp [runSeq, hO]
    rw [hseq] at hall ⊢
    obtain ⟨hok, hname⟩ := hall res (List.mem_cons_self _ _)
    have htail : ∀ r ∈ (runSeq ps st1).2, isOkRes r = true ∧
        nameOf r ++ ".html" ≠ "index.html" :=
      fun r hr => hall r (List.mem_cons_of_mem _ hr)
    cases res with
    | urlError => simp [isOkRes] at hok
    | repoError => simp [isOkRes] at hok
    | diverged => simp [isOkRes] at hok
    | ok cid n u pr pk =>
      simp only [nameOf] at hname
      obtain ⟨_, _, _, _, _, _, hst1⟩ :=
        run_ok p.parse p.repoOpenOk p.pushOk p.cfgName p.cfgEmail p.rawUrl
          p.shortName p.rng p.fuel st st1 cid n u pr pk hO
      have hidx : lookupFile st1.files "index.html" =
          some (((lookupFile st.files "index.html").getD "") ++
            indexEntry u (n ++ ".html")) := by
        rw [hst1]
        exact postFiles_index u n st hname
      have hgetD1 : (lookupFile st1.files "index.html").getD "" =
          ((lookupFile st.files "index.html").getD "") ++
            indexEntry u (n ++ ".html") := by
        rw [hidx]; rfl
      obtain ⟨ihlen, ihgetD, ihsome⟩ := ih st1 htail
      have hentry : entryOf (RunResult.ok cid n u pr pk) =
          indexEntry u (n ++ ".html") := rfl
      refine ⟨by simp [ihlen], ?_, ?_⟩
      · rw [ihgetD, hgetD1, joinEntries, hentry, String.append_assoc]
      · intro _
        by_cases hps : ps = []
        · subst hps
          have hrs : runSeq ([] : List RunParams) st1 = (st1, []) := rfl
          rw [hrs] at ihgetD ⊢
          simp only [joinEntries, hentry]
          rw [hidx, String.append_empty]
        · rw [ihsome hps, hgetD1, joinEntries, hentry, String.append_assoc]

/-- Sanity: the artifact template assembles to the exact document of
src/main.rs:144-154. -/
theorem file_content_check :
    file_content "U" =
      "<html>\n    <head>\n        <meta http-equiv=\"refresh\" content=\"0; URL=U\" />\n    </head>\n    <body>\n        <p>Redirecting...</p>\n        <p>If you are not redirected automatically, follow the <a href=\"U\">link</a></p>\n    </body>\n</html>" :=
  rfl

/-- Sanity: the ledger entry assembles to the exact format of src/main.rs:190. -/
theorem indexEntry_check :
    indexEntry "U" "abcde.html" =
      "\nU: <a href=\"./abcde.html\">./abcde.html</a><br/>" :=
  rfl

/-- Claim C1: every successful run appends exactly one commit, whose parent
list is `[h]` when the head pointed at commit `h` and `[]` when the
repository had no head, and the head then points at the new commit; for two
sequential successful runs against an initially empty repository, the first
commit has zero parents and the second has exactly one parent, equal to the
first commit's identifier. -/
theorem C1_commit_parentage :
    (∀ parse ro po cn ce raw sn rng fuel st st2 cid n u pr pk,
      run parse ro po cn ce raw sn rng fuel st = ⟨.ok cid n u pr pk, st2⟩ →
      ∃ c : GitCommit, st2.commits = st.commits ++ [c] ∧ c.id = cid ∧
        st2.head = some cid ∧
        (∀ h, st.head = some h → c.parents = [h]) ∧
        (st.head = none → c.parents = [])) ∧
    (∀ parse1 ro1 po1 cn1 ce1 raw1 sn1 rng1 fuel1
       parse2 ro2 po2 cn2 ce2 raw2 sn2 rng2 fuel2
       (s0 s1 s2 : RepoState) cid1 n1 u1 pr1 pk1 cid2 n2 u2 pr2 pk2,
      s0.commits = [] → s0.head = none →
      run parse1 ro1 po1 cn1 ce1 raw1 sn1 rng1 fuel1 s0 =
        ⟨.ok cid1 n1 u1 pr1 pk1, s1⟩ →
      run parse2 ro2 po2 cn2 ce2 raw2 sn2 rng2 fuel2 s1 =
        ⟨.ok cid2 n2 u2 pr2 pk2, s2⟩ →
      ∃ c1 c2 : GitCommit, s2.commits = [c1, c2] ∧ c1.id = cid1 ∧
        c2.id = cid2 ∧ c1.parents = [] ∧ c2.parents = [cid1]) := by
  constructor
  · intro parse ro po cn ce raw sn rng fuel st st2 cid n u pr pk h
    obtain ⟨_, _, _, _, hcid, _, hst2⟩ :=
      run_ok parse ro po cn ce raw sn rng fuel st st2 cid n u pr pk h
    subst hst2
    refine ⟨postCommit cn ce u n st, rfl, hcid.symm, ?_, ?_, ?_⟩
    · show some st.commits.length = some cid
      rw [hcid]
    · intro hh hhead
      show newParents st.head = [hh]
      rw [hhead]
      rfl
    · intro hhead
      show newParents st.head = []
      rw [hhead]
      rfl
  · intro parse1 ro1 po1 cn1 ce1 raw1 sn1 rng1 fuel1
      parse2 ro2 po2 cn2 ce2 raw2 sn2 rng2 fuel2
      s0 s1 s2 cid1 n1 u1 pr1 pk1 cid2 n2 u2 pr2 pk2 hc0 hh0 h1 h2
    obtain ⟨_, _, _, _, hcid1, _, hs1⟩ :=
      run_ok parse1 ro1 po1 cn1 ce1 raw1 sn1 rng1 fuel1 s0 s1 cid1 n1 u1 pr1 pk1 h1
    obtain ⟨_, _, _, _, hcid2, _, hs2⟩ :=
      run_ok parse2 ro2 po2 cn2 ce2 raw2 sn2 rng2 fuel2 s1 s2 cid2 n2 u2 pr2 pk2 h2
    subst hs1 hs2
    refine ⟨postCommit cn1 ce1 u1 n1 s0,
      postCommit cn2 ce2 u2 n2 (postState cn1 ce1 u1 n1 s0), ?_, ?_, ?_, ?_, ?_⟩
    · show (postState cn1 ce1 u1 n1 s0).commits ++ [_] = _
      rw [show (postState cn1 ce1 u1 n1 s0).commits = s0.commits ++
        [postCommit cn1 ce1 u1 n1 s0] from rfl, hc0]
      rfl
    · simpa [postCommit] using hcid1.symm
    · rw [hcid2]
      rfl
    · show newParents s0.head = []
      rw [hh0]
      rfl
    · show newParents (postState cn1 ce1 u1 n1 s0).head = [cid1]
      rw [show (postState cn1 ce1 u1 n1 s0).head = some s0.commits.length from rfl,
        hcid1]
      rfl

/-- Witness for C1: concrete instantiation of both parts at two runs from
the empty repository. -/
theorem C1_commit_parentage_witness :
    (∃ c : GitCommit,
      (postState "N" "E" "http://a/" "aaaaa" emptyRepo).commits =
        emptyRepo.commits ++ [c] ∧ c.id = 0 ∧
      (postState "N" "E" "http://a/" "aaaaa" emptyRepo).head = some 0 ∧
      (∀ h, emptyRepo.head = some h → c.parents = [h]) ∧
      (emptyRepo.head = none → c.parents = [])) ∧
    (∃ c1 c2 : GitCommit,
      (postState "N" "E" "http://b/" "bbbbb"
        (postState "N" "E" "http://a/" "aaaaa" emptyRepo)).commits = [c1, c2] ∧
      c1.id = 0 ∧ c2.id = 1 ∧ c1.parents = [] ∧ c2.parents = [0]) :=
  ⟨C1_commit_parentage.1 someParse true true "N" "E" "http://a/" (some "aaaaa")
      rng0 1 emptyRepo (postState "N" "E" "http://a/" "aaaaa" emptyRepo)
      0 "aaaaa" "http://a/" ("origin", "master") true rfl,
   C1_commit_parentage.2 someParse true true "N" "E" "http://a/" (some "aaaaa")
      rng0 1 someParse true true "N" "E" "http://b/" (some "bbbbb") rng0 1
      emptyRepo (postState "N" "E" "http://a/" "aaaaa" emptyRepo)
      (postState "N" "E" "http://b/" "bbbbb"
        (postState "N" "E" "http://a/" "aaaaa" emptyRepo))
      0 "aaaaa" "http://a/" ("origin", "master") true
      1 "bbbbb" "http://b/" ("origin", "master") true rfl rfl rfl rfl⟩

/-- Claim C2: in every successful run without a user-supplied name the
allocated name has length 5, consists of lowercase alphabetic characters
only, and no artifact with that name existed in the repository directory
before the run; and the allocation loop admits no fixed iteration bound:
for every fuel `k` there is a directory and random stream on which `k`
attempts do not suffice. -/
theorem C2_name_allocation :
    (∀ parse ro po cn ce raw rng fuel st st2 cid n u pr pk,
      run parse ro po cn ce raw none rng fuel st = ⟨.ok cid n u pr pk, st2⟩ →
      n.length = 5 ∧ (∀ c ∈ n.data, 'a' ≤ c ∧ c ≤ 'z') ∧
      lookupFile st.files (n ++ ".html") = none) ∧
    (∀ k, allocName [("aaaaa.html", "x")] (fun _ => 0) k 0 = none) := by
  constructor
  · intro parse ro po cn ce raw rng fuel st st2 cid n u pr pk h
    obtain ⟨_, _, _, _, _, hres, _⟩ :=
      run_ok parse ro po cn ce raw none rng fuel st st2 cid n u pr pk h
    rcases hres with hres | ⟨_, halloc⟩
    · exact absurd hres (by simp)
    · obtain ⟨⟨j, hj⟩, hfree⟩ := allocName_some st.files rng fuel 0 n halloc
      subst hj
      refine ⟨create_name_length rng j, ?_, hfree⟩
      intro c hc
      obtain ⟨h1, h2⟩ := create_name_chars rng j c hc
      exact ⟨h1, le_trans h2 (by decide)⟩
  · exact fun k => allocName_collide k 0

/-- Witness for C2: a run with no user-supplied name against the empty
repository allocates `aaaaa`, and three attempts do not suffice on the
colliding directory. -/
theorem C2_name_allocation_witness :
    (("aaaaa" : String).length = 5 ∧
      (∀ c ∈ ("aaaaa" : String).data, 'a' ≤ c ∧ c ≤ 'z') ∧
      lookupFile emptyRepo.files ("aaaaa" ++ ".html") = none) ∧
    allocName [("aaaaa.html", "x")] (fun _ => 0) 3 0 = none :=
  ⟨C2_name_allocation.1 someParse true true "N" "E" "http://a/" rng0 1
      emptyRepo (postState "N" "E" "http://a/" "aaaaa" emptyRepo)
      0 "aaaaa" "http://a/" ("origin", "master") true rfl,
   C2_name_allocation.2 3⟩

/-- Claim C7: when the repository cannot be opened the run terminates with
the working directory, commits and head untouched — no artifact or ledger
file is created or modified. -/
theorem C7_repo_open_failure :
    ∀ parse po cn ce raw sn rng fuel st,
      (run parse false po cn ce raw sn rng fuel st).state = st ∧
      ((run parse false po cn ce raw sn rng fuel st).result = .urlError ∨
       (run parse false po cn ce raw sn rng fuel st).result = .repoError) := by
  intro parse po cn ce raw sn rng fuel st
  unfold run
  cases hp : parse raw with
  | none => exact ⟨rfl, Or.inl rfl⟩
  | some u => exact ⟨rfl, Or.inr rfl⟩

/-- Claim C9: a generated name never contains `z`: every character of the
allocated name of a successful run without a user-supplied name lies in the
range `a`..`y`. -/
theorem C9_generated_name_no_z :
    ∀ parse ro po cn ce raw rng fuel st st2 cid n u pr pk,
      run parse ro po cn ce raw none rng fuel st = ⟨.ok cid n u pr pk, st2⟩ →
      ∀ c ∈ n.data, ('a' ≤ c ∧ c ≤ 'y') ∧ c ≠ 'z' := by
  intro parse ro po cn ce raw rng fuel st st2 cid n u pr pk h c hc
  obtain ⟨_, _, _, _, _, hres, _⟩ :=
    run_ok parse ro po cn ce raw none rng fuel st st2 cid n u pr pk h
  rcases hres with hres | ⟨_, halloc⟩
  · exact absurd hres (by simp)
  · obtain ⟨⟨j, hj⟩, _⟩ := allocName_some st.files rng fuel 0 n halloc
    subst hj
    obtain ⟨h1, h2⟩ := create_name_chars rng j c hc
    refine ⟨⟨h1, h2⟩, fun hz => ?_⟩
    rw [hz] at h2
    exact absurd h2 (by decide)

/-- Witness for C9: the name generated by the all-zero stream is `aaaaa`;
its first character lies in `a`..`y` and is not `z`. -/
theorem C9_generated_name_no_z_witness :
    ('a' ≤ 'a' ∧ 'a' ≤ 'y') ∧ 'a' ≠ 'z' :=
  C9_generated_name_no_z someParse true true "N" "E" "http://a/" rng0 1
    emptyRepo (postState "N" "E" "http://a/" "aaaaa" emptyRepo)
    0 "aaaaa" "http://a/" ("origin", "master") true rfl 'a' (by decide)

set_option maxRecDepth 4000 in
/-- Claim C3 as stated is false: the fallback hyperlink's label is the
fixed text `link`, not the URL.  The artifact written for target
`https://example.com/` contains no anchor whose href and label text are
both that URL. -/
theorem C3_artifact_label_counterexample :
    strOccurs ("<a href=\"" ++ "https://example.com/" ++ "\">" ++
        "https://example.com/" ++ "</a>")
      (file_content "https://example.com/") = false := by
  decide

/-- Claim C3 (amended): for every URL the artifact contains a client-side
refresh directive with delay 0 whose target is the URL, and a fallback
hyperlink whose href is the URL and whose label is the fixed text `link`
(not the URL). -/
theorem C3_artifact_content_amended (u : String) :
    strOccurs (metaOpen ++ u ++ metaClose) (file_content u) = true ∧
      strOccurs (aOpen ++ u ++ aClose) (file_content u) = true := by
  constructor
  · have e : file_content u = hdr ++ (metaOpen ++ u ++ metaClose) ++
        (midPart ++ aOpen ++ u ++ aClose ++ tailPart) := by
      simp [file_content, String.append_assoc]
    rw [e]
    exact strOccurs_append_mid _ _ _
  · have e : file_content u = (hdr ++ metaOpen ++ u ++ metaClose ++ midPart) ++
        (aOpen ++ u ++ aClose) ++ tailPart := by
      simp [file_content, String.append_assoc]
    rw [e]
    exact strOccurs_append_mid _ _ _

/-- Claim C4 as stated is false when the user supplies the short name
`index`: the run succeeds, but the artifact write replaces the ledger file
before the entry is appended, so the new ledger is not the old content plus
one entry. -/
theorem C4_ledger_append_counterexample :
    isOkRes (run someParse true true "N" "E" "http://u/" (some "index") rng0 1
      oldLedgerRepo).result = true ∧
    lookupFile (run someParse true true "N" "E" "http://u/" (some "index")
        rng0 1 oldLedgerRepo).state.files "index.html" ≠
      some (((lookupFile oldLedgerRepo.files "index.html").getD "") ++
        indexEntry "http://u/" ("index" ++ ".html")) := by
  exact ⟨rfl, by decide⟩

/-- Claim C4 (amended): every successful run whose artifact file is not the
ledger file itself (short name `index`) leaves `index.html` equal to its
prior content (empty if absent) followed by exactly one entry
`\n<target>: <a href="./<name>.html">./<name>.html</a><br/>`. -/
theorem C4_ledger_append_amended :
    ∀ parse ro po cn ce raw sn rng fuel st st2 cid n u pr pk,
      run parse ro po cn ce raw sn rng fuel st = ⟨.ok cid n u pr pk, st2⟩ →
      n ++ ".html" ≠ "index.html" →
      lookupFile st2.files "index.html" =
        some (((lookupFile st.files "index.html").getD "") ++
          indexEntry u (n ++ ".html")) := by
  intro parse ro po cn ce raw sn rng fuel st st2 cid n u pr pk h hname
  obtain ⟨_, _, _, _, _, _, hst2⟩ :=
    run_ok parse ro po cn ce raw sn rng fuel st st2 cid n u pr pk h
  subst hst2
  exact postFiles_index u n st hname

/-- Witness for the amended C4: a run against the empty repository appends
its single entry to the (absent, hence empty) ledger. -/
theorem C4_ledger_append_amended_witness :
    lookupFile (postState "N" "E" "http://a/" "aaaaa" emptyRepo).files
        "index.html" =
      some (((lookupFile emptyRepo.files "index.html").getD "") ++
        indexEntry "http://a/" ("aaaaa" ++ ".html")) :=
  C4_ledger_append_amended someParse true true "N" "E" "http://a/"
    (some "aaaaa") rng0 1 emptyRepo
    (postState "N" "E" "http://a/" "aaaaa" emptyRepo)
    0 "aaaaa" "http://a/" ("origin", "master") true rfl (by decide)

/-- Claim C5 as stated is false for a run with short name `index`: the run
succeeds, yet afterwards the ledger is not the concatenation of the runs'
entries — it also contains the redirect document the artifact write put
into `index.html`. -/
theorem C5_ledger_counterexample :
    (∀ r ∈ (runSeq [pIndex] emptyRepo).2, isOkRes r = true) ∧
    lookupFile (runSeq [pIndex] emptyRepo).1.files "index.html" ≠
      some (((lookupFile emptyRepo.files "index.html").getD "") ++
        joinEntries (runSeq [pIndex] emptyRepo).2) := by
  exact ⟨by decide, by decide⟩

/-- Witness for the amended C5: two successful runs (names `aaaaa`,
`bbbbb`) against the empty repository leave the ledger holding exactly
their two entries in run order. -/
theorem C5_ledger_after_runs_witness :
    (runSeq [pa, pb] emptyRepo).2.length = [pa, pb].length ∧
    ((lookupFile (runSeq [pa, pb] emptyRepo).1.files "index.html").getD "") =
      ((lookupFile emptyRepo.files "index.html").getD "") ++
        joinEntries (runSeq [pa, pb] emptyRepo).2 ∧
    ([pa, pb] ≠ [] → lookupFile (runSeq [pa, pb] emptyRepo).1.files
        "index.html" =
      some (((lookupFile emptyRepo.files "index.html").getD "") ++
        joinEntries (runSeq [pa, pb] emptyRepo).2)) :=
  C5_ledger_after_runs [pa, pb] emptyRepo (by decide)

/-- Claim C6: a user-supplied short name is used verbatim with no existence
check: even when an artifact with that name already exists, the run succeeds,
the artifact file is overwritten with the new redirect document, and one new
ledger entry is still appended. -/
theorem C6_user_name_verbatim :
    ∀ parse po cn ce raw rng fuel st st2 n u old res,
      parse raw = some u →
      lookupFile st.files (n ++ ".html") = some old →
      run parse true po cn ce raw (some n) rng fuel st = ⟨res, st2⟩ →
      res = .ok st.commits.length n u ("origin", "master") po ∧
      st2.files = postFiles u n st ∧
      (∃ c, st2.commits = st.commits ++ [c]) ∧
      (n ++ ".html" ≠ "index.html" →
        lookupFile st2.files (n ++ ".html") = some (file_content u) ∧
        lookupFile st2.files "index.html" =
          some (((lookupFile st.files "index.html").getD "") ++
            indexEntry u (n ++ ".html"))) := by
  intro parse po cn ce raw rng fuel st st2 n u old res hp hold hrun
  have h2 : (⟨.ok st.commits.length n u ("origin", "master") po,
      postState cn ce u n st⟩ : RunOut) = ⟨res, st2⟩ := by
    rw [← hrun]
    unfold run
    rw [hp]
    rfl
  have hres : RunResult.ok st.commits.length n u ("origin", "master") po = res :=
    congrArg RunOut.result h2
  have hst2 : postState cn ce u n st = st2 := congrArg RunOut.state h2
  subst hst2
  refine ⟨hres.symm, rfl, ⟨postCommit cn ce u n st, rfl⟩, fun hname => ?_⟩
  exact ⟨postFiles_artifact u n st hname, postFiles_index u n st hname⟩

/-- Witness for C6: supplying the existing name `aaaaa` overwrites the
artifact `aaaaa.html` and still appends a ledger entry. -/
theorem C6_user_name_verbatim_witness :
    RunResult.ok preRepo.commits.length "aaaaa" "http://a/" ("origin", "master")
        true =
      .ok preRepo.commits.length "aaaaa" "http://a/" ("origin", "master") true ∧
    (postState "N" "E" "http://a/" "aaaaa" preRepo).files =
      postFiles "http://a/" "aaaaa" preRepo ∧
    (∃ c, (postState "N" "E" "http://a/" "aaaaa" preRepo).commits =
      preRepo.commits ++ [c]) ∧
    ("aaaaa" ++ ".html" ≠ "index.html" →
      lookupFile (postState "N" "E" "http://a/" "aaaaa" preRepo).files
          ("aaaaa" ++ ".html") = some (file_content "http://a/") ∧
      lookupFile (postState "N" "E" "http://a/" "aaaaa" preRepo).files
          "index.html" =
        some (((lookupFile preRepo.files "index.html").getD "") ++
          indexEntry "http://a/" ("aaaaa" ++ ".html"))) :=
  C6_user_name_verbatim someParse true "N" "E" "http://a/" rng0 1 preRepo
    (postState "N" "E" "http://a/" "aaaaa" preRepo) "aaaaa" "http://a/" "PREV"
    (.ok preRepo.commits.length "aaaaa" "http://a/" ("origin", "master") true)
    rfl rfl rfl

/-- Claim C8 as stated is false: the push request names the hardcoded
branch `master`, not the currently checked-out branch — here a successful
run against a repository whose checked-out branch is `dev` still requests a
push of `master` to `origin`. -/
theorem C8_push_branch_counterexample :
    pushReqOf (run someParse true true "N" "E" "http://u/" (some "abc") rng0 1
        devRepo).result = some ("origin", "master") ∧
    devRepo.branch = "dev" ∧
    some (("origin", "master") : String × String) ≠
      some (("origin", devRepo.branch)) := by
  exact ⟨rfl, rfl, by decide⟩

/-- Claim C8 (amended): after every successful commit the program requests a
push of the hardcoded branch `master` to the remote `origin`; the push
outcome is reported but never alters the repository state, so on push
failure the new commit and the advanced head are retained. -/
theorem C8_push_amended :
    (∀ parse ro p1 p2 cn ce raw sn rng fuel st,
      (run parse ro p1 cn ce raw sn rng fuel st).state =
        (run parse ro p2 cn ce raw sn rng fuel st).state) ∧
    (∀ parse ro po cn ce raw sn rng fuel st st2 cid n u pr pk,
      run parse ro po cn ce raw sn rng fuel st = ⟨.ok cid n u pr pk, st2⟩ →
      pr = ("origin", "master") ∧ pk = po ∧ st2.head = some cid ∧
      ∃ c, st2.commits = st.commits ++ [c] ∧ c.id = cid) := by
  constructor
  · exact fun parse ro p1 p2 cn ce raw sn rng fuel st =>
      run_state_pushIndep parse ro p1 p2 cn ce raw sn rng fuel st
  · intro parse ro po cn ce raw sn rng fuel st st2 cid n u pr pk h
    obtain ⟨_, _, hpk, hpr, hcid, _, hst2⟩ :=
      run_ok parse ro po cn ce raw sn rng fuel st st2 cid n u pr pk h
    subst hst2
    refine ⟨hpr, hpk, ?_, postCommit cn ce u n st, rfl, hcid.symm⟩
    show some st.commits.length = some cid
    rw [hcid]

/-- Witness for the amended C8: with a failing push (`pushOk = false`) the
run's state equals the state with a succeeding push, and the concrete
successful run pushed `master` to `origin` with its commit retained. -/
theorem C8_push_amended_witness :
    ((run someParse true false "N" "E" "http://a/" (some "aaaaa") rng0 1
        emptyRepo).state =
      (run someParse true true "N" "E" "http://a/" (some "aaaaa") rng0 1
        emptyRepo).state) ∧
    (("origin", "master") : String × String) = ("origin", "master") ∧
    (false : Bool) = false ∧
    (postState "N" "E" "http://a/" "aaaaa" emptyRepo).head = some 0 ∧
    (∃ c, (postState "N" "E" "http://a/" "aaaaa" emptyRepo).commits =
      emptyRepo.commits ++ [c] ∧ c.id = 0) :=
  ⟨C8_push_amended.1 someParse true false true "N" "E" "http://a/"
      (some "aaaaa") rng0 1 emptyRepo,
   C8_push_amended.2 someParse true false "N" "E" "http://a/" (some "aaaaa")
      rng0 1 emptyRepo (postState "N" "E" "http://a/" "aaaaa" emptyRepo)
      0 "aaaaa" "http://a/" ("origin", "master") false rfl⟩

/-- Claim C10: the URL in the artifact, the URL in the ledger entry, and the
URL in the commit message are all the same serialization of the parsed URL
(each contains it, and all three are built from the one string the parser
returned); the serialization may differ textually from the raw argument, as
the example parser shows. -/
theorem C10_url_consistency :
    (∀ parse ro po cn ce raw sn rng fuel st st2 cid n u pr pk,
      run parse ro po cn ce raw sn rng fuel st = ⟨.ok cid n u pr pk, st2⟩ →
      parse raw = some u ∧
      ∃ c : GitCommit, st2.commits = st.commits ++ [c] ∧
        c.message = "Add redirect to " ++ u ∧
        st2.files = postFiles u n st ∧
        strOccurs u (file_content u) = true ∧
        strOccurs u (indexEntry u (n ++ ".html")) = true ∧
        strOccurs u c.message = true) ∧
    (∃ raw u : String, exampleParse raw = some u ∧ u ≠ raw) := by
  constructor
  · intro parse ro po cn ce raw sn rng fuel st st2 cid n u pr pk h
    obtain ⟨hp, _, _, _, _, _, hst2⟩ :=
      run_ok parse ro po cn ce raw sn rng fuel st st2 cid n u pr pk h
    subst hst2
    refine ⟨hp, postCommit cn ce u n st, rfl, rfl, rfl, ?_, ?_, ?_⟩
    · have e : file_content u = (hdr ++ metaOpen) ++ u ++
          (metaClose ++ midPart ++ aOpen ++ u ++ aClose ++ tailPart) := by
        simp [file_content, String.append_assoc]
      rw [e]
      exact strOccurs_append_mid _ _ _
    · have e : indexEntry u (n ++ ".html") = "\n" ++ u ++
          (": <a href=\"./" ++ (n ++ ".html") ++ "\">./" ++ (n ++ ".html") ++
            "</a><br/>") := by
        simp [indexEntry, String.append_assoc]
      rw [e]
      exact strOccurs_append_mid _ _ _
    · show strOccurs u ("Add redirect to " ++ u) = true
      exact strOccurs_append_right _ _
  · exact ⟨"https://example.com", "https://example.com/", by decide, by decide⟩

/-- Witness for C10: concrete instantiation at a successful run. -/
theorem C10_url_consistency_witness :
    someParse "http://a/" = some "http://a/" ∧
    ∃ c : GitCommit,
      (postState "N" "E" "http://a/" "aaaaa" emptyRepo).commits =
        emptyRepo.commits ++ [c] ∧
      c.message = "Add redirect to " ++ "http://a/" ∧
      (postState "N" "E" "http://a/" "aaaaa" emptyRepo).files =
        postFiles "http://a/" "aaaaa" emptyRepo ∧
      strOccurs "http://a/" (file_content "http://a/") = true ∧
      strOccurs "http://a/" (indexEntry "http://a/" ("aaaaa" ++ ".html")) = true ∧
      strOccurs "http://a/" c.message = true :=
  C10_url_consistency.1 someParse true true "N" "E" "http://a/" (some "aaaaa")
    rng0 1 emptyRepo (postState "N" "E" "http://a/" "aaaaa" emptyRepo)
    0 "aaaaa" "http://a/" ("origin", "master") true rfl

end Shurl
